import Mathlib

/-!
# ClassiPort secure vault — verification of `src/script.js`

Shallow embedding of the client-side encrypted vault (`script.js`).

Modelling conventions:
* JavaScript strings are modelled as `List Char` (sequences of Unicode scalar
  values); `TextEncoder`/`TextDecoder` (UTF-8) round-tripping is modelled as the
  identity on those sequences.
* The Web Crypto platform primitives (PBKDF2 via `crypto.subtle.deriveKey`,
  AES-GCM via `crypto.subtle.encrypt/decrypt`) are modelled symbolically as an
  ideal KDF / ideal AEAD: a derived key is the pair (password, salt), an
  envelope records the key, the IV and the plaintext, and decryption succeeds
  exactly when the key matches.  The byte-level base64 framing (`btoa`/`atob`)
  of envelope and salt is absorbed into this symbolic representation.
* `JSON.stringify` / `JSON.parse` are embedded as executable Lean functions
  over a `Json` value type; number literals are kept as their lexemes.
* `crypto.getRandomValues` is modelled by an entropy function `Nat → List Nat`
  (length ↦ fresh bytes) supplied by the caller of each operation.
-/

namespace ClassiPort

/-- JavaScript (JSON.parse-produced) values, as assigned to `vault.entries`.
Numbers keep their source lexeme. -/
inductive Json where
  | null : Json
  | bool : Bool → Json
  | num : List Char → Json
  | str : List Char → Json
  | arr : List Json → Json
  | obj : List (List Char × Json) → Json
deriving Repr

/-- Hex digit for code points, lower case (as produced by `JSON.stringify`). -/
def hexDigit (n : Nat) : Char :=
  if n < 10 then Char.ofNat (48 + n) else Char.ofNat (87 + n)

/-- One character of `JSON.stringify` string escaping: `"` and `\` are
backslash-escaped, the named control escapes are used for \x08 \x09 \x0a \x0c
\x0d, other control characters become `\u00XX`, everything else is literal. -/
def escapeChar (c : Char) : List Char :=
  if c = '"' then ['\\', '"']
  else if c = '\\' then ['\\', '\\']
  else if c = '\x08' then ['\\', 'b']
  else if c = '\x09' then ['\\', 't']
  else if c = '\x0a' then ['\\', 'n']
  else if c = '\x0c' then ['\\', 'f']
  else if c = '\x0d' then ['\\', 'r']
  else if c.toNat < 0x20 then
    let n := c.toNat
    '\\' :: 'u' :: '0' :: '0' :: [hexDigit (n / 16), hexDigit (n % 16)]
  else [c]

/-- `JSON.stringify` body of a string literal (quotes excluded). -/
def escapeString : List Char → List Char
  | [] => []
  | c :: cs => escapeChar c ++ escapeString cs

/-- A `JSON.stringify` string literal, quotes included. -/
def stringLit (s : List Char) : List Char :=
  '"' :: escapeString s ++ ['"']

mutual

/-- `JSON.stringify(v)` (no indentation argument, as in `saveVaultData`). -/
def jsonStringify : Json → List Char
  | .null => "null".data
  | .bool true => "true".data
  | .bool false => "false".data
  | .num lexeme => lexeme
  | .str s => stringLit s
  | .arr xs => '[' :: stringifyElems xs ++ [']']
  | .obj kvs => '\x7b' :: stringifyMembers kvs ++ ['\x7d']

/-- Comma-separated array elements. -/
def stringifyElems : List Json → List Char
  | [] => []
  | [x] => jsonStringify x
  | x :: y :: rest => jsonStringify x ++ ',' :: stringifyElems (y :: rest)

/-- Comma-separated object members. -/
def stringifyMembers : List (List Char × Json) → List Char
  | [] => []
  | [(k, v)] => stringLit k ++ ':' :: jsonStringify v
  | (k, v) :: m :: rest =>
      stringLit k ++ ':' :: jsonStringify v ++ ',' :: stringifyMembers (m :: rest)

end

/-- JSON insignificant whitespace (RFC 8259 / `JSON.parse`). -/
def isJsonWs (c : Char) : Bool :=
  c = ' ' ∨ c = '\x09' ∨ c = '\x0a' ∨ c = '\x0d'

/-- Skip insignificant whitespace. -/
def skipWs (input : List Char) : List Char :=
  input.dropWhile isJsonWs

/-- ECMAScript `String.prototype.trim` whitespace set
(WhiteSpace ∪ LineTerminator). -/
def isTrimWs (c : Char) : Bool :=
  let n := c.toNat
  n = 0x09 ∨ n = 0x0a ∨ n = 0x0b ∨ n = 0x0c ∨ n = 0x0d ∨ n = 0x20 ∨
  n = 0xa0 ∨ n = 0x1680 ∨ (0x2000 ≤ n ∧ n ≤ 0x200a) ∨ n = 0x2028 ∨
  n = 0x2029 ∨ n = 0x202f ∨ n = 0x205f ∨ n = 0x3000 ∨ n = 0xfeff

/-- `s.trim()`: drop trim-whitespace from both ends. -/
def jsTrim (s : List Char) : List Char :=
  ((s.dropWhile isTrimWs).reverse.dropWhile isTrimWs).reverse

/-- Value of a hex digit (`JSON.parse` accepts both cases in `\uXXXX`). -/
def hexVal (c : Char) : Option Nat :=
  if '0' ≤ c ∧ c ≤ '9' then some (c.toNat - 48)
  else if 'a' ≤ c ∧ c ≤ 'f' then some (c.toNat - 87)
  else if 'A' ≤ c ∧ c ≤ 'F' then some (c.toNat - 55)
  else none

/-- Single-character escapes accepted by `JSON.parse` after a backslash. -/
def escCharOf (c : Char) : Option Char :=
  if c = '"' then some '"'
  else if c = '\\' then some '\\'
  else if c = '/' then some '/'
  else if c = 'b' then some '\x08'
  else if c = 'f' then some '\x0c'
  else if c = 'n' then some '\x0a'
  else if c = 'r' then some '\x0d'
  else if c = 't' then some '\x09'
  else none

/-- Parse the body of a JSON string literal (input starts just after the
opening quote); returns the decoded characters and the input after the
closing quote.  Raw control characters are rejected, as in `JSON.parse`.
`\uXXXX` code units are mapped through `Char.ofNat` (scalar-value model). -/
def parseStringBody : List Char → Option (List Char × List Char)
  | [] => none
  | c :: rest =>
    if c = '"' then some ([], rest)
    else if c = '\\' then
      match rest with
      | [] => none
      | e :: rest2 =>
        if e = 'u' then
          match rest2 with
          | h1 :: h2 :: h3 :: h4 :: rest3 =>
            match hexVal h1, hexVal h2, hexVal h3, hexVal h4 with
            | some a, some b, some x, some d =>
              (parseStringBody rest3).map
                (fun p => (Char.ofNat (4096 * a + 256 * b + 16 * x + d) :: p.1, p.2))
            | _, _, _, _ => none
          | _ => none
        else
          match escCharOf e with
          | some x => (parseStringBody rest2).map (fun p => (x :: p.1, p.2))
          | none => none
    else if c.toNat < 0x20 then none
    else (parseStringBody rest).map (fun p => (c :: p.1, p.2))

/-- ASCII decimal digit. -/
def isDig (c : Char) : Bool :=
  '0' ≤ c ∧ c ≤ '9'

/-- Integer part of a JSON number: `0`, or a nonzero digit followed by
digits (leading zeros rejected, as in `JSON.parse`). -/
def parseIntPart : List Char → Option (List Char × List Char)
  | [] => none
  | '0' :: rest => some (['0'], rest)
  | c :: rest =>
    if isDig c then some (c :: rest.takeWhile isDig, rest.dropWhile isDig)
    else none

/-- Optional fraction part `.digits` of a JSON number. -/
def parseFracPart (input : List Char) : Option (List Char × List Char) :=
  match input with
  | '.' :: rest =>
    match rest.takeWhile isDig with
    | [] => none
    | ds => some ('.' :: ds, rest.dropWhile isDig)
  | _ => some ([], input)

/-- Optional exponent part `[eE][+-]?digits` of a JSON number. -/
def parseExpPart (input : List Char) : Option (List Char × List Char) :=
  match input with
  | e :: rest =>
    if e = 'e' ∨ e = 'E' then
      let (sign, r1) := match rest with
        | '+' :: r => (['+'], r)
        | '-' :: r => (['-'], r)
        | _ => (([] : List Char), rest)
      match r1.takeWhile isDig with
      | [] => none
      | ds => some (e :: sign ++ ds, r1.dropWhile isDig)
    else some ([], input)
  | [] => some ([], input)

/-- Lex a JSON number; returns the lexeme and the rest of the input. -/
def parseNumber (input : List Char) : Option (List Char × List Char) := do
  let (neg, r1) := match input with
    | '-' :: r => ((['-'] : List Char), r)
    | _ => ([], input)
  let (ip, r2) ← parseIntPart r1
  let (fp, r3) ← parseFracPart r2
  let (ep, r4) ← parseExpPart r3
  some (neg ++ ip ++ fp ++ ep, r4)

mutual

/-- Fueled recursive-descent JSON value parser (the fuel only bounds nesting
and list length; `jsonParse` supplies enough for any input). -/
def parseVal : Nat → List Char → Option (Json × List Char)
  | 0, _ => none
  | f + 1, input =>
    match skipWs input with
    | 'n' :: 'u' :: 'l' :: 'l' :: rest => some (.null, rest)
    | 't' :: 'r' :: 'u' :: 'e' :: rest => some (.bool true, rest)
    | 'f' :: 'a' :: 'l' :: 's' :: 'e' :: rest => some (.bool false, rest)
    | '"' :: rest => (parseStringBody rest).map (fun p => (.str p.1, p.2))
    | '[' :: rest => parseArrayTail f rest
    | '\x7b' :: rest => parseObjTail f rest
    | c :: rest =>
      if c = '-' ∨ isDig c then
        (parseNumber (c :: rest)).map (fun p => (.num p.1, p.2))
      else none
    | [] => none

/-- After `[`: empty array or first element then the comma-separated rest. -/
def parseArrayTail : Nat → List Char → Option (Json × List Char)
  | 0, _ => none
  | f + 1, input =>
    match skipWs input with
    | ']' :: rest => some (.arr [], rest)
    | _ =>
      match parseVal f input with
      | some (v, rest) =>
        match parseArrayRest f rest with
        | some (vs, rest2) => some (.arr (v :: vs), rest2)
        | none => none
      | none => none

/-- After an array element: `]` ends, `,` continues. -/
def parseArrayRest : Nat → List Char → Option (List Json × List Char)
  | 0, _ => none
  | f + 1, input =>
    match skipWs input with
    | ']' :: rest => some ([], rest)
    | ',' :: rest =>
      match parseVal f rest with
      | some (v, rest2) =>
        match parseArrayRest f rest2 with
        | some (vs, rest3) => some (v :: vs, rest3)
        | none => none
      | none => none
    | _ => none

/-- After `\x7b`: empty object or first member then the rest. -/
def parseObjTail : Nat → List Char → Option (Json × List Char)
  | 0, _ => none
  | f + 1, input =>
    match skipWs input with
    | '\x7d' :: rest => some (.obj [], rest)
    | '"' :: rest =>
      match parseMember f rest with
      | some (kv, rest2) =>
        match parseObjRest f rest2 with
        | some (kvs, rest3) => some (.obj (kv :: kvs), rest3)
        | none => none
      | none => none
    | _ => none

/-- One object member, input positioned just after the key's opening quote. -/
def parseMember : Nat → List Char → Option ((List Char × Json) × List Char)
  | 0, _ => none
  | f + 1, input =>
    match parseStringBody input with
    | some (k, rest) =>
      match skipWs rest with
      | ':' :: rest2 =>
        match parseVal f rest2 with
        | some (v, rest3) => some ((k, v), rest3)
        | none => none
      | _ => none
    | none => none

/-- After an object member: `\x7d` ends, `,` continues with the next key. -/
def parseObjRest : Nat → List Char → Option (List (List Char × Json) × List Char)
  | 0, _ => none
  | f + 1, input =>
    match skipWs input with
    | '\x7d' :: rest => some ([], rest)
    | ',' :: rest =>
      match skipWs rest with
      | '"' :: rest2 =>
        match parseMember f rest2 with
        | some (kv, rest3) =>
          match parseObjRest f rest3 with
          | some (kvs, rest4) => some (kv :: kvs, rest4)
          | none => none
        | none => none
      | _ => none
    | _ => none

end

/-- `JSON.parse(input)`: one value, then only whitespace to the end.
`none` models the thrown `SyntaxError`.  The fuel `2·|input| + 16` exceeds
what any input can consume (each nesting level or list step eats a char). -/
def jsonParse (input : List Char) : Option Json :=
  match parseVal (2 * input.length + 16) input with
  | some (v, rest) => if skipWs rest = [] then some v else none
  | none => none

/-! ## Entries and the vault codec -/

/-- A vault entry (`{ id, title, content }` in `addEntry`). -/
structure Entry where
  id : List Char
  title : List Char
  content : List Char
deriving DecidableEq, Repr

/-- The object key `"id"`. -/
def keyId : List Char := ['i', 'd']

/-- The object key `"title"`. -/
def keyTitle : List Char := ['t', 'i', 't', 'l', 'e']

/-- The object key `"content"`. -/
def keyContent : List Char := ['c', 'o', 'n', 't', 'e', 'n', 't']

/-- The JSON object a JS entry literal denotes (insertion order id, title,
content, as in `addEntry`). -/
def entryToJson (e : Entry) : Json :=
  .obj [(keyId, .str e.id), (keyTitle, .str e.title), (keyContent, .str e.content)]

/-- The JSON array a JS entries array denotes. -/
def entriesToJson (E : List Entry) : Json :=
  .arr (E.map entryToJson)

/-- `JSON.stringify(vault.entries)` for a well-typed entry list
(the plaintext of `saveVaultData`). -/
def encodeEntries (E : List Entry) : List Char :=
  jsonStringify (entriesToJson E)

/-- The tail of a serialized entry array after the first element: each further
element is comma-prefixed, and `]` closes the array. -/
def entriesRestChars : List Entry → List Char → List Char
  | [], rest => ']' :: rest
  | e :: E, rest => ',' :: (jsonStringify (entryToJson e) ++ entriesRestChars E rest)


/-- Meaning function for the spec's "entry": reads one entry back out of its
JSON object form.  Spec-side definition (the source assigns the parsed JSON
value directly), used to state round-trip claims. -/
def jsonToEntry : Json → Option Entry
  | .obj [(k1, .str i), (k2, .str t), (k3, .str c)] =>
    if k1 = keyId ∧ k2 = keyTitle ∧ k3 = keyContent then some ⟨i, t, c⟩ else none
  | _ => none

/-- Meaning function for the spec's "entry sequence" (see `jsonToEntry`). -/
def jsonToEntries : Json → Option (List Entry)
  | .arr xs => xs.mapM jsonToEntry
  | _ => none

/-- Modelled from the spec: "the expected entry-collection structure (an
ordered sequence of entries with id, title, content fields)" — the source has
no such check, this predicate is only used to state claim C4. -/
def isEntryCollection (v : Json) : Bool :=
  (jsonToEntries v).isSome

/-! ## Key derivation and the authenticated cipher (symbolic) -/

/-- `deriveKey`'s output: PBKDF2-SHA-256 (250 000 iterations) is modelled as
an ideal injective KDF, so the key is the pair of its inputs. -/
structure DerivedKey where
  password : List Char
  salt : List Nat
deriving DecidableEq, Repr

/-- `deriveKey(password, salt)` — deterministic, pure. -/
def deriveKey (password : List Char) (salt : List Nat) : DerivedKey :=
  ⟨password, salt⟩

/-- `IV_LENGTH = 12` (AES-GCM standard IV length in bytes). -/
def IV_LENGTH : Nat := 12

/-- The persisted unit of `encrypt`: base64(IV ‖ ciphertext ‖ tag) is modelled
symbolically as the IV together with an ideal ciphertext term that records the
key and plaintext. -/
structure Envelope where
  key : DerivedKey
  iv : List Nat
  plaintext : List Char
deriving DecidableEq, Repr

/-- `encrypt(key, data)`: fresh `IV_LENGTH`-byte IV from the entropy source,
AES-GCM sealing modelled ideally. -/
def encrypt (key : DerivedKey) (rng : Nat → List Nat) (data : List Char) : Envelope :=
  ⟨key, rng IV_LENGTH, data⟩

/-- `decrypt(key, data)`: the AES-GCM tag check is modelled ideally — the
plaintext comes back iff the key matches, otherwise the thrown
`OperationError` is modelled as `none`. -/
def decrypt (key : DerivedKey) (env : Envelope) : Option (List Char) :=
  if env.key = key then some env.plaintext else none

/-! ## Persistence and session state -/

/-- The two localStorage slots (`STORAGE_KEY`, `SALT_KEY`); the base64 text
wrappers (`btoa`/`atob`) are absorbed into the symbolic representations. -/
structure Store where
  data : Option Envelope
  salt : Option (List Nat)
deriving Repr

/-- The global `vault` object plus the visible UI section (`view = true` when
the vault section is shown). -/
structure Vault where
  entries : Json
  cryptoKey : Option DerivedKey
  salt : Option (List Nat)
  view : Bool
deriving Repr

/-- `const vault = { entries: [], cryptoKey: null, salt: null }`, login view. -/
def initialVault : Vault :=
  ⟨.arr [], none, none, false⟩

/-- The three user-surfaced error classes of the script. -/
inductive VaultError where
  | emptyPassword
  | unlockFailed
  | validationError
deriving DecidableEq, Repr

/-- The message each error class displays (`showLoginError`/`showEntryError`).
`addEntry`'s own "Title and content cannot be empty." branch is unreachable
through `handleAddEntry`, which validates the trimmed inputs first. -/
def errorMessage : VaultError → String
  | .emptyPassword => "Please enter your master password."
  | .unlockFailed => "Invalid password or corrupted vault."
  | .validationError => "Both title and content are required."

/-- JS property read on an object literal: later duplicate keys win. -/
def lookupLast : List (List Char × Json) → List Char → Option Json
  | [], _ => none
  | (k, v) :: rest, key =>
    match lookupLast rest key with
    | some r => some r
    | none => if k = key then some v else none

/-- `e.id`-style property access; `none` models `undefined`. -/
def jsGet (v : Json) (key : List Char) : Option Json :=
  match v with
  | .obj kvs => lookupLast kvs key
  | _ => none

/-- `e.id !== id` is false exactly when the property is the string `id`. -/
def jsIdMatches (e : Json) (id : List Char) : Bool :=
  match jsGet e keyId with
  | some (.str s) => s = id
  | _ => false

/-- `saveVaultData()`: stringify the entries, encrypt under the session key,
overwrite the stored envelope.  With a `null` key `crypto.subtle.encrypt`
rejects, so no write happens. -/
def saveVaultData (v : Vault) (rng : Nat → List Nat) (store : Store) : Store :=
  match v.cryptoKey with
  | some key => { store with data := some (encrypt key rng (jsonStringify v.entries)) }
  | none => store

/-- `loadVaultData()`: absent envelope means a fresh empty vault; otherwise
decrypt and `JSON.parse` under `try/catch`.  `some v` is the value assigned to
`vault.entries` on `return true`; `none` is the caught error / `return false`. -/
def loadVaultData (key : DerivedKey) (stored : Option Envelope) : Option Json :=
  match stored with
  | none => some (.arr [])
  | some env =>
    match decrypt key env with
    | some plain => jsonParse plain
    | none => none

/-! ## Session operations -/

/-- `addEntry(title, content)`: falsy (empty-string) check, then push the
trimmed entry and re-persist.  `push` on a non-array `entries` throws before
any mutation; that uncaught fault is modelled as no completed state change. -/
def addEntry (v : Vault) (store : Store) (title content uuid : List Char)
    (rng : Nat → List Nat) : Vault × Store × Option VaultError :=
  if title = [] ∨ content = [] then (v, store, some .validationError)
  else
    match v.entries with
    | .arr xs =>
      let newEntry := entryToJson ⟨uuid, jsTrim title, jsTrim content⟩
      let v1 := { v with entries := .arr (xs ++ [newEntry]) }
      (v1, saveVaultData v1 rng store, none)
    | _ => (v, store, none)

/-- `deleteEntry(id)`: filter out entries whose `id` property strictly equals
`id`, then re-persist.  `filter` on a non-array throws; modelled as no
completed state change. -/
def deleteEntry (v : Vault) (store : Store) (id : List Char)
    (rng : Nat → List Nat) : Vault × Store :=
  match v.entries with
  | .arr xs =>
    let v1 := { v with entries := .arr (xs.filter (fun e => ! jsIdMatches e id)) }
    (v1, saveVaultData v1 rng store)
  | _ => (v, store)

/-- `handleAddEntry()`: trim both inputs, reject if either is empty, else call
`addEntry` with the trimmed strings. -/
def handleAddEntry (v : Vault) (store : Store) (titleRaw contentRaw uuid : List Char)
    (rng : Nat → List Nat) : Vault × Store × Option VaultError :=
  let title := jsTrim titleRaw
  let content := jsTrim contentRaw
  if title = [] ∨ content = [] then (v, store, some .validationError)
  else addEntry v store title content uuid rng

/-- `handleUnlock()`: empty-password check; load the salt or generate and
persist 16 fresh bytes; derive the key; load/decrypt the vault; on failure
null the key and surface the generic unlock error, on success show the vault
section. -/
def handleUnlock (v : Vault) (store : Store) (password : List Char)
    (rng : Nat → List Nat) : Vault × Store × Option VaultError :=
  if password = [] then (v, store, some .emptyPassword)
  else
    let saltStore : List Nat × Store :=
      match store.salt with
      | some s => (s, store)
      | none =>
        let s := rng 16
        (s, { store with salt := some s })
    let salt := saltStore.1
    let store1 := saltStore.2
    let key := deriveKey password salt
    let v1 := { v with salt := some salt, cryptoKey := some key }
    match loadVaultData key store1.data with
    | some entries => ({ v1 with entries := entries, view := true }, store1, none)
    | none => ({ v1 with cryptoKey := none }, store1, some .unlockFailed)

/-- `handleLogout()`: null the key, empty the in-memory entries, show the
login section; the store is untouched. -/
def handleLogout (v : Vault) (store : Store) : Vault × Store :=
  ({ v with cryptoKey := none, entries := .arr [], view := false }, store)

/-- One user-level operation on the vault UI, with its entropy source. -/
inductive Op where
  | unlock (password : List Char) (rng : Nat → List Nat)
  | logout
  | add (titleRaw contentRaw uuid : List Char) (rng : Nat → List Nat)
  | del (id : List Char) (rng : Nat → List Nat)

/-- The state transition each operation performs (errors dropped). -/
def step (s : Vault × Store) (op : Op) : Vault × Store :=
  match op with
  | .unlock password rng =>
    let r := handleUnlock s.1 s.2 password rng
    (r.1, r.2.1)
  | .logout => handleLogout s.1 s.2
  | .add t c u rng =>
    let r := handleAddEntry s.1 s.2 t c u rng
    (r.1, r.2.1)
  | .del id rng => deleteEntry s.1 s.2 id rng

/-- Run a sequence of operations from a starting state. -/
def runOps (ops : List Op) (s : Vault × Store) : Vault × Store :=
  ops.foldl step s

/-! ## Codec round-trip lemmas -/

/-- Reading one emitted hex digit back gives the encoded value. -/
theorem hexDigitVal {n : Nat} (h : n < 16) : hexVal (hexDigit n) = some n := by
  interval_cases n <;> rfl

theorem charOfNat_toNat (c : Char) : Char.ofNat c.toNat = c := by
  have hv : c.toNat.isValidChar := c.valid
  apply Char.eq_of_val_eq
  simp only [Char.ofNat, hv, dif_pos, Char.ofNatAux]
  apply UInt32.eq_of_toBitVec_eq
  apply BitVec.eq_of_toNat_eq
  rfl

theorem parseStringBody_quote (rest : List Char) :
    parseStringBody ('"' :: rest) = some ([], rest) := by
  rw [parseStringBody.eq_def]; simp

theorem parseStringBody_namedEsc (e x : Char) (X : List Char) (he : ¬ e = 'u')
    (hx : escCharOf e = some x) :
    parseStringBody ('\\' :: e :: X) = (parseStringBody X).map (fun p => (x :: p.1, p.2)) := by
  rw [parseStringBody.eq_def]
  simp [he, hx]

theorem parseStringBody_u00 (n : Nat) (hn : n < 0x20) (X : List Char) :
    parseStringBody ('\\' :: 'u' :: '0' :: '0' :: hexDigit (n / 16) :: hexDigit (n % 16) :: X)
      = (parseStringBody X).map (fun p => (Char.ofNat n :: p.1, p.2)) := by
  have hd : n / 16 < 16 := by omega
  have hm : n % 16 < 16 := by omega
  have h0 : hexVal '0' = some 0 := rfl
  have harith : 16 * (n / 16) + n % 16 = n := by omega
  rw [parseStringBody.eq_def]
  simp [h0, hexDigitVal hd, hexDigitVal hm, harith]

theorem parseStringBody_other (c : Char) (X : List Char) (h1 : ¬ c = '"')
    (h2 : ¬ c = '\\') (h3 : ¬ c.toNat < 0x20) :
    parseStringBody (c :: X) = (parseStringBody X).map (fun p => (c :: p.1, p.2)) := by
  rw [parseStringBody.eq_def]
  simp [h1, h2, h3]

theorem parseStringBody_escape (s rest : List Char) :
    parseStringBody (escapeString s ++ '"' :: rest) = some (s, rest) := by
  induction s with
  | nil =>
    rw [escapeString]
    exact parseStringBody_quote rest
  | cons c cs ih =>
    rw [escapeString, List.append_assoc]
    by_cases h1 : c = '"'
    · subst h1
      rw [show escapeChar '"' = ['\\', '"'] from rfl]
      rw [show (['\\', '"'] : List Char) ++ (escapeString cs ++ '"' :: rest)
            = '\\' :: '"' :: (escapeString cs ++ '"' :: rest) from rfl]
      rw [parseStringBody_namedEsc '"' '"' _ (by decide) (by decide), ih]
      rfl
    by_cases h2 : c = '\\'
    · subst h2
      rw [show escapeChar '\\' = ['\\', '\\'] from rfl]
      rw [show (['\\', '\\'] : List Char) ++ (escapeString cs ++ '"' :: rest)
            = '\\' :: '\\' :: (escapeString cs ++ '"' :: rest) from rfl]
      rw [parseStringBody_namedEsc '\\' '\\' _ (by decide) (by decide), ih]
      rfl
    by_cases h3 : c = '\x08'
    · subst h3
      rw [show escapeChar '\x08' = ['\\', 'b'] from rfl]
      rw [show (['\\', 'b'] : List Char) ++ (escapeString cs ++ '"' :: rest)
            = '\\' :: 'b' :: (escapeString cs ++ '"' :: rest) from rfl]
      rw [parseStringBody_namedEsc 'b' '\x08' _ (by decide) (by decide), ih]
      rfl
    by_cases h4 : c = '\x09'
    · subst h4
      rw [show escapeChar '\x09' = ['\\', 't'] from rfl]
      rw [show (['\\', 't'] : List Char) ++ (escapeString cs ++ '"' :: rest)
            = '\\' :: 't' :: (escapeString cs ++ '"' :: rest) from rfl]
      rw [parseStringBody_namedEsc 't' '\x09' _ (by decide) (by decide), ih]
      rfl
    by_cases h5 : c = '\x0a'
    · subst h5
      rw [show escapeChar '\x0a' = ['\\', 'n'] from rfl]
      rw [show (['\\', 'n'] : List Char) ++ (escapeString cs ++ '"' :: rest)
            = '\\' :: 'n' :: (escapeString cs ++ '"' :: rest) from rfl]
      rw [parseStringBody_namedEsc 'n' '\x0a' _ (by decide) (by decide), ih]
      rfl
    by_cases h6 : c = '\x0c'
    · subst h6
      rw [show escapeChar '\x0c' = ['\\', 'f'] from rfl]
      rw [show (['\\', 'f'] : List Char) ++ (escapeString cs ++ '"' :: rest)
            = '\\' :: 'f' :: (escapeString cs ++ '"' :: rest) from rfl]
      rw [parseStringBody_namedEsc 'f' '\x0c' _ (by decide) (by decide), ih]
      rfl
    by_cases h7 : c = '\x0d'
    · subst h7
      rw [show escapeChar '\x0d' = ['\\', 'r'] from rfl]
      rw [show (['\\', 'r'] : List Char) ++ (escapeString cs ++ '"' :: rest)
            = '\\' :: 'r' :: (escapeString cs ++ '"' :: rest) from rfl]
      rw [parseStringBody_namedEsc 'r' '\x0d' _ (by decide) (by decide), ih]
      rfl
    by_cases h8 : c.toNat < 0x20
    · rw [show escapeChar c
            = ['\\', 'u', '0', '0', hexDigit (c.toNat / 16), hexDigit (c.toNat % 16)] from by
          simp [escapeChar, h1, h2, h3, h4, h5, h6, h7, h8]]
      rw [show (['\\', 'u', '0', '0', hexDigit (c.toNat / 16), hexDigit (c.toNat % 16)] : List Char)
              ++ (escapeString cs ++ '"' :: rest)
            = '\\' :: 'u' :: '0' :: '0' :: hexDigit (c.toNat / 16) :: hexDigit (c.toNat % 16)
              :: (escapeString cs ++ '"' :: rest) from rfl]
      rw [parseStringBody_u00 c.toNat h8, ih, charOfNat_toNat]
      rfl
    · rw [show escapeChar c = [c] from by simp [escapeChar, h1, h2, h3, h4, h5, h6, h7, h8]]
      rw [show ([c] : List Char) ++ (escapeString cs ++ '"' :: rest)
            = c :: (escapeString cs ++ '"' :: rest) from rfl]
      rw [parseStringBody_other c _ h1 h2 h8, ih]
      rfl


/-! ## Parser round-trip lemmas -/

/-- `skipWs` is the identity on input starting with a non-whitespace char. -/
theorem skipWs_cons (c : Char) (X : List Char) (h : isJsonWs c = false) :
    skipWs (c :: X) = c :: X := by
  simp [skipWs, List.dropWhile_cons, h]

/-- A string literal in front of further input, in parser-ready form. -/
theorem stringLit_append (s rest : List Char) :
    stringLit s ++ rest = '"' :: (escapeString s ++ '"' :: rest) := by
  simp [stringLit]

/-- A string literal parses back to its string. -/
theorem parseVal_str (f : Nat) (s rest : List Char) :
    parseVal (f + 1) (stringLit s ++ rest) = some (.str s, rest) := by
  rw [stringLit_append, parseVal.eq_def]
  simp [skipWs_cons, isJsonWs, parseStringBody_escape]

/-- An object member with a string value parses back to its key-value pair. -/
theorem parseMember_str (f : Nat) (k s rest : List Char) :
    parseMember (f + 2) (escapeString k ++ '"' :: ':' :: (stringLit s ++ rest))
      = some ((k, .str s), rest) := by
  rw [parseMember.eq_def]
  simp [parseStringBody_escape, skipWs_cons, isJsonWs, parseVal_str f]

/-- Closing brace ends the member list. -/
theorem parseObjRest_nil (f : Nat) (rest : List Char) :
    parseObjRest (f + 1) ('\x7d' :: rest) = some ([], rest) := by
  rw [parseObjRest.eq_def]
  simp [skipWs_cons, isJsonWs]

/-- A comma-prefixed member followed by a parseable member tail. -/
theorem parseObjRest_cons (f : Nat) (k s R : List Char)
    (kvs : List (List Char × Json)) (rest : List Char)
    (hR : parseObjRest (f + 2) R = some (kvs, rest)) :
    parseObjRest (f + 3) (',' :: '"' :: (escapeString k ++ '"' :: ':' :: (stringLit s ++ R)))
      = some ((k, .str s) :: kvs, rest) := by
  rw [parseObjRest.eq_def]
  simp [skipWs_cons, isJsonWs, parseMember_str f, hR]


/-- The serialized entry object, in parser-ready cons form. -/
theorem entryChars_eq (i t c rest : List Char) :
    jsonStringify (entryToJson ⟨i, t, c⟩) ++ rest
      = '\x7b' :: '"' :: (escapeString keyId ++ '"' :: ':' :: (stringLit i ++
          ',' :: '"' :: (escapeString keyTitle ++ '"' :: ':' :: (stringLit t ++
          ',' :: '"' :: (escapeString keyContent ++ '"' :: ':' :: (stringLit c ++
          '\x7d' :: rest)))))) := by
  simp [entryToJson, jsonStringify, stringifyMembers, stringLit, List.append_assoc]

/-- A serialized entry object parses back to its JSON form. -/
theorem parseVal_entry (f : Nat) (e : Entry) (rest : List Char) :
    parseVal (f + 6) (jsonStringify (entryToJson e) ++ rest) = some (entryToJson e, rest) := by
  obtain ⟨i, t, c⟩ := e
  rw [entryChars_eq, parseVal.eq_def]
  have h3 := parseObjRest_nil (f + 1) rest
  have h2 := parseObjRest_cons f keyContent c ('\x7d' :: rest) [] rest h3
  have h1 := parseObjRest_cons (f + 1) keyTitle t
    (',' :: '"' :: (escapeString keyContent ++ '"' :: ':' :: (stringLit c ++ '\x7d' :: rest)))
    [(keyContent, .str c)] rest h2
  rw [show (f + 6 : Nat) = (f + 5) + 1 from rfl]
  simp only [skipWs_cons _ _ (by decide : isJsonWs '\x7b' = false)]
  rw [parseObjTail.eq_def]
  simp [skipWs_cons, isJsonWs, parseMember_str (f + 2), h1, entryToJson]


/-- Closing bracket ends the element list. -/
theorem parseArrayRest_nil (f : Nat) (rest : List Char) :
    parseArrayRest (f + 1) (']' :: rest) = some ([], rest) := by
  rw [parseArrayRest.eq_def]
  simp [skipWs_cons, isJsonWs]

/-- A comma-prefixed entry element followed by a parseable element tail. -/
theorem parseArrayRest_cons (f : Nat) (e : Entry) (R : List Char) (vs : List Json)
    (rest : List Char) (hR : parseArrayRest (f + 6) R = some (vs, rest)) :
    parseArrayRest (f + 7) (',' :: (jsonStringify (entryToJson e) ++ R))
      = some (entryToJson e :: vs, rest) := by
  rw [parseArrayRest.eq_def]
  simp [skipWs_cons, isJsonWs, parseVal_entry f, hR]

/-- The whole comma-separated tail of a serialized entry array parses back. -/
theorem parseArrayRest_entries (f : Nat) (E : List Entry) (rest : List Char) :
    parseArrayRest (f + 7 * E.length + 1) (entriesRestChars E rest)
      = some (E.map entryToJson, rest) := by
  induction E generalizing f with
  | nil => simpa [entriesRestChars] using parseArrayRest_nil f rest
  | cons e E2 ih =>
    have hR := ih (f + 6)
    rw [show f + 6 + 7 * E2.length + 1 = f + 7 * E2.length + 1 + 6 from by omega] at hR
    have h := parseArrayRest_cons (f + 7 * E2.length + 1) e (entriesRestChars E2 rest)
      (E2.map entryToJson) rest hR
    rw [show f + 7 * (e :: E2).length + 1 = f + 7 * E2.length + 1 + 7 from by
      simp [List.length_cons]; omega]
    simpa [entriesRestChars] using h


/-- Serialized nonempty entry arrays split as first element + tail chars. -/
theorem stringifyElems_entries (E : List Entry) (e : Entry) (rest : List Char) :
    stringifyElems ((e :: E).map entryToJson) ++ ']' :: rest
      = jsonStringify (entryToJson e) ++ entriesRestChars E rest := by
  induction E generalizing e with
  | nil => simp [stringifyElems, entriesRestChars]
  | cons e2 E2 ih =>
    simp only [List.map_cons] at ih ⊢
    rw [show stringifyElems (entryToJson e :: entryToJson e2 :: List.map entryToJson E2)
          = jsonStringify (entryToJson e)
              ++ ',' :: stringifyElems (entryToJson e2 :: List.map entryToJson E2) from by
        simp [stringifyElems]]
    rw [List.append_assoc, List.cons_append, ih e2]
    simp [entriesRestChars]

/-- An empty element list parses to the empty array. -/
theorem parseArrayTail_nil (f : Nat) (rest : List Char) :
    parseArrayTail (f + 1) (']' :: rest) = some (.arr [], rest) := by
  rw [parseArrayTail.eq_def]
  simp [skipWs_cons, isJsonWs]

/-- A nonempty serialized entry-array body parses to the mapped array. -/
theorem parseArrayTail_entries (f : Nat) (e : Entry) (E : List Entry) (rest : List Char) :
    parseArrayTail (f + 7 * E.length + 8)
        (jsonStringify (entryToJson e) ++ entriesRestChars E rest)
      = some (.arr ((e :: E).map entryToJson), rest) := by
  obtain ⟨i, t, c⟩ := e
  have hv := parseVal_entry (f + 7 * E.length + 1) ⟨i, t, c⟩ (entriesRestChars E rest)
  have hrest := parseArrayRest_entries (f + 6) E rest
  rw [show f + 6 + 7 * E.length + 1 = f + 7 * E.length + 7 from by omega] at hrest
  rw [show f + 7 * E.length + 1 + 6 = f + 7 * E.length + 7 from by omega] at hv
  rw [entryChars_eq] at hv ⊢
  rw [show f + 7 * E.length + 8 = (f + 7 * E.length + 7) + 1 from by omega]
  rw [parseArrayTail.eq_def]
  simp [skipWs_cons, isJsonWs, hv, hrest]

/-- A serialized entry array parses back to its JSON form, for every fuel
surplus `f`. -/
theorem parseVal_encodeEntries (f : Nat) (E : List Entry) (rest : List Char) :
    parseVal (f + 7 * E.length + 9) (encodeEntries E ++ rest)
      = some (entriesToJson E, rest) := by
  cases E with
  | nil =>
    rw [show encodeEntries [] ++ rest = '[' :: ']' :: rest from by
      simp [encodeEntries, entriesToJson, jsonStringify, stringifyElems]]
    rw [show f + 7 * ([] : List Entry).length + 9 = (f + 8) + 1 from by simp]
    rw [parseVal.eq_def]
    simp only [skipWs_cons _ _ (by decide : isJsonWs '[' = false)]
    simp [parseArrayTail_nil (f + 7), entriesToJson]
  | cons e E2 =>
    have harr := parseArrayTail_entries (f + 7) e E2 rest
    rw [show encodeEntries (e :: E2) ++ rest
          = '[' :: (jsonStringify (entryToJson e) ++ entriesRestChars E2 rest) from by
      rw [encodeEntries, entriesToJson, jsonStringify]
      rw [show ('[' :: stringifyElems ((e :: E2).map entryToJson) ++ [']']) ++ rest
            = '[' :: (stringifyElems ((e :: E2).map entryToJson) ++ ']' :: rest) from by
        simp]
      rw [stringifyElems_entries]]
    rw [show f + 7 * (e :: E2).length + 9 = (f + 7 * E2.length + 15) + 1 from by
      simp [List.length_cons]; omega]
    rw [show f + 7 + 7 * E2.length + 8 = f + 7 * E2.length + 15 from by omega] at harr
    rw [parseVal.eq_def]
    simp only [skipWs_cons _ _ (by decide : isJsonWs '[' = false)]
    simp [harr, entriesToJson]


/-- Each serialized entry object is at least 4 characters long. -/
theorem entryChars_length (e : Entry) : 4 ≤ (jsonStringify (entryToJson e)).length := by
  obtain ⟨i, t, c⟩ := e
  have h := entryChars_eq i t c []
  rw [List.append_nil] at h
  rw [h]
  simp [List.length_append, stringLit]
  omega

/-- A serialized entry list is at least 4 characters per entry. -/
theorem stringifyElems_length (E : List Entry) :
    4 * E.length ≤ (stringifyElems (E.map entryToJson)).length := by
  induction E with
  | nil => simp [stringifyElems]
  | cons e E2 ih =>
    cases E2 with
    | nil =>
      simpa [stringifyElems] using entryChars_length e
    | cons e2 E3 =>
      have h1 := entryChars_length e
      rw [show (e :: e2 :: E3).map entryToJson
            = entryToJson e :: entryToJson e2 :: E3.map entryToJson from by simp]
      rw [show stringifyElems (entryToJson e :: entryToJson e2 :: E3.map entryToJson)
            = jsonStringify (entryToJson e)
                ++ ',' :: stringifyElems (entryToJson e2 :: E3.map entryToJson) from by
          simp [stringifyElems]]
      simp only [List.map_cons] at ih
      simp only [List.length_append, List.length_cons, List.length_map] at *
      omega

/-- `JSON.parse` undoes `JSON.stringify` on serialized entry lists: the
built-in fuel of `jsonParse` suffices. -/
theorem jsonParse_encodeEntries (E : List Entry) :
    jsonParse (encodeEntries E) = some (entriesToJson E) := by
  have hlen : 7 * E.length + 9 ≤ 2 * (encodeEntries E).length + 16 := by
    have h := stringifyElems_length E
    have : (encodeEntries E).length = (stringifyElems (E.map entryToJson)).length + 2 := by
      simp [encodeEntries, entriesToJson, jsonStringify, List.length_append]
    omega
  obtain ⟨g, hg⟩ : ∃ g, 2 * (encodeEntries E).length + 16 = g + 7 * E.length + 9 :=
    ⟨2 * (encodeEntries E).length + 16 - (7 * E.length + 9), by omega⟩
  have hp := parseVal_encodeEntries g E []
  rw [List.append_nil] at hp
  rw [jsonParse, hg, hp]
  simp [skipWs]

/-- The meaning function reads a serialized-then-parsed entry list back. -/
theorem jsonToEntries_entriesToJson (E : List Entry) :
    jsonToEntries (entriesToJson E) = some E := by
  rw [entriesToJson, jsonToEntries]
  induction E with
  | nil => rfl
  | cons e E2 ih =>
    obtain ⟨i, t, c⟩ := e
    simp only [List.map_cons, List.mapM_cons, ih]
    rw [show jsonToEntry (entryToJson ⟨i, t, c⟩) = some ⟨i, t, c⟩ from by
      simp [jsonToEntry, entryToJson, keyId, keyTitle, keyContent]]
    rfl


/-! ## Trim lemmas -/

/-- The head surviving `dropWhile` fails the predicate. -/
theorem head_dropWhile_false (p : Char → Bool) (l : List Char) (x : Char)
    (h : (l.dropWhile p).head? = some x) : p x = false := by
  induction l with
  | nil => simp at h
  | cons a l2 ih =>
    rw [List.dropWhile_cons] at h
    by_cases hp : p a
    · simp [hp] at h
      exact ih h
    · simp [hp] at h
      rw [← h]
      simpa using hp

/-- `dropWhile` keeps a list whose head fails the predicate. -/
theorem dropWhile_of_head_false (p : Char → Bool) (l : List Char)
    (h : ∀ x ∈ l.head?, p x = false) : l.dropWhile p = l := by
  cases l with
  | nil => rfl
  | cons a l2 => simp [List.dropWhile_cons, h a (by simp)]

/-- A trimmed string never starts with trim-whitespace. -/
theorem jsTrim_head (s : List Char) (x : Char) (h : (jsTrim s).head? = some x) :
    isTrimWs x = false := by
  rw [jsTrim, List.head?_reverse] at h
  have hne : (s.dropWhile isTrimWs).reverse.dropWhile isTrimWs ≠ [] := by
    intro h0
    rw [h0] at h
    simp at h
  have hsuf := List.dropWhile_suffix (l := (s.dropWhile isTrimWs).reverse) isTrimWs
  obtain ⟨t, ht⟩ := hsuf
  have hgl : ((s.dropWhile isTrimWs).reverse.dropWhile isTrimWs).getLast?
      = (s.dropWhile isTrimWs).reverse.getLast? := by
    conv_rhs => rw [← ht]
    exact (List.getLast?_append_of_ne_nil t hne).symm
  rw [hgl, List.getLast?_reverse] at h
  exact head_dropWhile_false isTrimWs s x h

/-- A trimmed string never ends with trim-whitespace. -/
theorem jsTrim_getLast (s : List Char) (x : Char) (h : (jsTrim s).getLast? = some x) :
    isTrimWs x = false := by
  rw [jsTrim, List.getLast?_reverse] at h
  exact head_dropWhile_false isTrimWs (s.dropWhile isTrimWs).reverse x h

/-- `trim` is idempotent (so `addEntry`'s second trim after `handleAddEntry`
changes nothing). -/
theorem jsTrim_idem (s : List Char) : jsTrim (jsTrim s) = jsTrim s := by
  have h1 : (jsTrim s).dropWhile isTrimWs = jsTrim s :=
    dropWhile_of_head_false _ _ (fun x hx => jsTrim_head s x hx)
  have h2 : (jsTrim s).reverse.dropWhile isTrimWs = (jsTrim s).reverse := by
    apply dropWhile_of_head_false
    intro x hx
    rw [List.head?_reverse] at hx
    exact jsTrim_getLast s x hx
  rw [jsTrim, h1, h2, List.reverse_reverse]


/-! ## Claim theorems -/

/-- C1: for every entry sequence `E`, password `P` and salt, decoding the
result of opening the envelope produced by sealing `encode(E)` under
`derive(P, salt)` with that same key yields `E` again: the ideal AES-GCM open
returns the sealed plaintext, `loadVaultData` recovers exactly the JSON form
of `E`, and parsing followed by the entry meaning function restores `E` with
insertion order and all fields intact. -/
theorem claim1_roundTrip (E : List Entry) (P : List Char) (salt : List Nat)
    (rng : Nat → List Nat) :
    decrypt (deriveKey P salt) (encrypt (deriveKey P salt) rng (encodeEntries E))
        = some (encodeEntries E)
    ∧ loadVaultData (deriveKey P salt)
        (some (encrypt (deriveKey P salt) rng (encodeEntries E))) = some (entriesToJson E)
    ∧ (decrypt (deriveKey P salt) (encrypt (deriveKey P salt) rng (encodeEntries E))).bind
        (fun p => (jsonParse p).bind jsonToEntries) = some E :=
  ⟨by simp [decrypt, encrypt],
   by simp [loadVaultData, decrypt, encrypt, jsonParse_encodeEntries],
   by simp [decrypt, encrypt, jsonParse_encodeEntries, jsonToEntries_entriesToJson]⟩

/-- C2: sealing under `derive(P, salt)` and opening under `derive(Q, salt)`
with `P ≠ Q` always fails (no plaintext is ever returned), and through
`handleUnlock` the failure surfaces as the unlock-failed error with the key
discarded. -/
theorem claim2_wrongPassword (P Q : List Char) (salt : List Nat) (m : List Char)
    (rng rng2 : Nat → List Nat) (v : Vault) (store : Store)
    (hPQ : P ≠ Q) (hQ : Q ≠ []) (hsalt : store.salt = some salt)
    (hdata : store.data = some (encrypt (deriveKey P salt) rng m)) :
    decrypt (deriveKey Q salt) (encrypt (deriveKey P salt) rng m) = none
    ∧ (handleUnlock v store Q rng2).2.2 = some .unlockFailed
    ∧ (handleUnlock v store Q rng2).1.cryptoKey = none := by
  have hdec : decrypt (deriveKey Q salt) (encrypt (deriveKey P salt) rng m) = none := by
    simp [decrypt, encrypt, deriveKey]
    intro h
    exact absurd h hPQ
  refine ⟨hdec, ?_, ?_⟩ <;>
    simp [handleUnlock, hQ, hsalt, hdata, loadVaultData, hdec]

/-- C2 witness at concrete inputs. -/
theorem claim2_witness :
    decrypt (deriveKey ['b'] [0])
        (encrypt (deriveKey ['a'] [0]) (fun n => List.replicate n 0) []) = none
    ∧ (handleUnlock initialVault
        ⟨some (encrypt (deriveKey ['a'] [0]) (fun n => List.replicate n 0) []), some [0]⟩
        ['b'] (fun n => List.replicate n 0)).2.2 = some .unlockFailed
    ∧ (handleUnlock initialVault
        ⟨some (encrypt (deriveKey ['a'] [0]) (fun n => List.replicate n 0) []), some [0]⟩
        ['b'] (fun n => List.replicate n 0)).1.cryptoKey = none :=
  claim2_wrongPassword ['a'] ['b'] [0] [] (fun n => List.replicate n 0)
    (fun n => List.replicate n 0) initialVault _ (by decide) (by decide) rfl rfl

/-- C3: `handleAddEntry` with a title or content that trims to empty rejects
with the validation error and changes neither the vault nor the store. -/
theorem claim3_validation (v : Vault) (store : Store) (tRaw cRaw uuid : List Char)
    (rng : Nat → List Nat) (h : jsTrim tRaw = [] ∨ jsTrim cRaw = []) :
    handleAddEntry v store tRaw cRaw uuid rng = (v, store, some .validationError) := by
  rw [handleAddEntry]
  rcases h with h | h <;> simp [h]

/-- C3 witness: whitespace-only title at concrete inputs. -/
theorem claim3_witness :
    handleAddEntry initialVault ⟨none, none⟩ [' '] ['x'] ['u'] (fun n => List.replicate n 0)
      = (initialVault, ⟨none, none⟩, some .validationError) :=
  claim3_validation initialVault ⟨none, none⟩ [' '] ['x'] ['u']
    (fun n => List.replicate n 0) (Or.inl rfl)

/-- C7: unlocking with an empty password rejects immediately with the
empty-password error and leaves vault and store untouched — no salt is
generated or persisted and no key is derived. -/
theorem claim7_emptyPassword (v : Vault) (store : Store) (rng : Nat → List Nat)
    (password : List Char) (h : password = []) :
    handleUnlock v store password rng = (v, store, some .emptyPassword) := by
  subst h
  rw [handleUnlock]
  simp

/-- C7 witness at concrete inputs. -/
theorem claim7_witness :
    handleUnlock initialVault ⟨none, none⟩ [] (fun n => List.replicate n 0)
      = (initialVault, ⟨none, none⟩, some .emptyPassword) :=
  claim7_emptyPassword initialVault ⟨none, none⟩ (fun n => List.replicate n 0) [] rfl



/-- C4 counterexample: the claim "every payload that does not parse as the
entry-collection structure fails decode" is false on the code.  The plaintext
`42` is not an entry collection, yet `loadVaultData` succeeds and hands the
non-collection value through: the `try/catch` only guards `JSON.parse`, it
does not validate the parsed shape. -/
theorem claim4_counterexample :
    loadVaultData (deriveKey ['p'] [0])
        (some (encrypt (deriveKey ['p'] [0]) (fun n => List.replicate n 0) ['4', '2']))
      = some (.num ['4', '2'])
    ∧ isEntryCollection (.num ['4', '2']) = false :=
  ⟨rfl, rfl⟩

/-- C4 (amended): decode fails — caught and surfaced as the generic unlock
failure — exactly when the decrypted plaintext is not valid JSON; a plaintext
that parses as any JSON value, entry collection or not, is accepted and its
parsed value is stored as the entry state. -/
theorem claim4_amended (key : DerivedKey) (rng : Nat → List Nat) (plain : List Char) :
    (jsonParse plain = none →
      loadVaultData key (some (encrypt key rng plain)) = none)
    ∧ ∀ v : Json, jsonParse plain = some v →
      loadVaultData key (some (encrypt key rng plain)) = some v := by
  constructor
  · intro h
    simp [loadVaultData, decrypt, encrypt, h]
  · intro v h
    simp [loadVaultData, decrypt, encrypt, h]

/-- C4 witness: the amended claim applied at the concrete plaintext `42`. -/
theorem claim4_witness :
    loadVaultData (deriveKey ['p'] [1])
        (some (encrypt (deriveKey ['p'] [1]) (fun n => List.replicate n 1) ['4', '2']))
      = some (.num ['4', '2']) :=
  (claim4_amended (deriveKey ['p'] [1]) (fun n => List.replicate n 1) ['4', '2']).2
    (.num ['4', '2']) rfl

/-- C5: whenever unlock's decryption or decoding step fails, the session ends
locked — the derived key is discarded and the UI section is unchanged — the
store is untouched, and the single unlock-failed error surfaces with the one
generic message that does not distinguish a wrong password from a corrupted
store (both failure causes produce the identical result). -/
theorem claim5_unlockFailure (v : Vault) (store : Store) (password : List Char)
    (rng : Nat → List Nat) (salt : List Nat) (env : Envelope)
    (hpw : password ≠ []) (hsalt : store.salt = some salt) (hdata : store.data = some env)
    (hfail : decrypt (deriveKey password salt) env = none
      ∨ ∃ p, decrypt (deriveKey password salt) env = some p ∧ jsonParse p = none) :
    handleUnlock v store password rng
      = ({ v with salt := some salt, cryptoKey := none }, store, some .unlockFailed)
    ∧ (handleUnlock v store password rng).1.view = v.view
    ∧ (handleUnlock v store password rng).1.entries = v.entries
    ∧ errorMessage .unlockFailed = "Invalid password or corrupted vault." := by
  have hload : loadVaultData (deriveKey password salt) store.data = none := by
    rw [hdata]
    rcases hfail with h | ⟨p, hd, hp⟩
    · simp [loadVaultData, h]
    · simp [loadVaultData, hd, hp]
  refine ⟨?_, ?_, ?_, rfl⟩ <;>
    simp [handleUnlock, hpw, hsalt, hload]

/-- C5 witness: wrong-key decryption failure at concrete inputs. -/
theorem claim5_witness :
    handleUnlock initialVault
        ⟨some (encrypt (deriveKey ['a'] [2]) (fun n => List.replicate n 2) []), some [2]⟩
        ['w'] (fun n => List.replicate n 2)
      = ({ initialVault with salt := some [2], cryptoKey := none },
         ⟨some (encrypt (deriveKey ['a'] [2]) (fun n => List.replicate n 2) []), some [2]⟩,
         some .unlockFailed) :=
  (claim5_unlockFailure initialVault
    ⟨some (encrypt (deriveKey ['a'] [2]) (fun n => List.replicate n 2) []), some [2]⟩
    ['w'] (fun n => List.replicate n 2) [2]
    (encrypt (deriveKey ['a'] [2]) (fun n => List.replicate n 2) [])
    (by decide) rfl rfl (Or.inl rfl)).1

/-- C9: logout discards the derived key and the in-memory entries and shows
the login view again, while the persisted envelope and salt slots are exactly
as they were — no persistence write happens. -/
theorem claim9_logout (v : Vault) (store : Store) :
    (handleLogout v store).1.cryptoKey = none
    ∧ (handleLogout v store).1.entries = .arr []
    ∧ (handleLogout v store).1.view = false
    ∧ (handleLogout v store).1.salt = v.salt
    ∧ (handleLogout v store).2 = store
    ∧ (handleLogout v store).2.data = store.data
    ∧ (handleLogout v store).2.salt = store.salt :=
  ⟨rfl, rfl, rfl, rfl, rfl, rfl, rfl⟩



/-- No write ever touches the salt slot in `saveVaultData`. -/
theorem saveVaultData_salt (v : Vault) (rng : Nat → List Nat) (store : Store) :
    (saveVaultData v rng store).salt = store.salt := by
  rw [saveVaultData]
  split <;> rfl

/-- Single-step salt preservation: once the stored salt is present, no
operation changes it. -/
theorem step_salt_preserved (s : Vault × Store) (op : Op) (sal : List Nat)
    (h : s.2.salt = some sal) : (step s op).2.salt = some sal := by
  obtain ⟨v, store⟩ := s
  simp only at h
  cases op with
  | unlock pw rng =>
    by_cases hpw : pw = []
    · simp [step, handleUnlock, hpw, h]
    · cases hl : loadVaultData (deriveKey pw sal) store.data with
      | some e => simp [step, handleUnlock, hpw, h, hl]
      | none => simp [step, handleUnlock, hpw, h, hl]
  | logout => simp [step, handleLogout, h]
  | add t c u rng =>
    simp only [step, handleAddEntry]
    split
    · simpa using h
    · simp only [addEntry]
      split
      · simpa using h
      · split
        · simp [saveVaultData_salt, h]
        · simpa using h
  | del id rng =>
    simp only [step, deleteEntry]
    split
    · simp [saveVaultData_salt, h]
    · simpa using h

/-- Salt preservation along any operation sequence. -/
theorem runOps_salt (ops : List Op) (s : Vault × Store) (sal : List Nat)
    (h : s.2.salt = some sal) : (runOps ops s).2.salt = some sal := by
  induction ops generalizing s with
  | nil => simpa [runOps]
  | cons op rest ih =>
    rw [runOps, List.foldl_cons]
    exact ih (step s op) (step_salt_preserved s op sal h)

/-- C6: the persisted salt is written exactly once — over every operation
sequence a stored salt is never overwritten or regenerated, and unlock
persists the 16 fresh random bytes only when no salt is stored. -/
theorem claim6_saltOnce :
    (∀ (ops : List Op) (v : Vault) (store : Store) (sal : List Nat),
        store.salt = some sal → (runOps ops (v, store)).2.salt = some sal)
    ∧ ∀ (v : Vault) (store : Store) (pw : List Char) (rng : Nat → List Nat),
        store.salt = none → pw ≠ [] → (∀ n, (rng n).length = n) →
        (step (v, store) (.unlock pw rng)).2.salt = some (rng 16)
        ∧ (rng 16).length = 16 := by
  constructor
  · intro ops v store sal h
    exact runOps_salt ops (v, store) sal h
  · intro v store pw rng hnone hpw hrng
    refine ⟨?_, hrng 16⟩
    cases hl : loadVaultData (deriveKey pw (rng 16)) store.data with
    | some e => simp [step, handleUnlock, hpw, hnone, hl]
    | none => simp [step, handleUnlock, hpw, hnone, hl]

/-- C6 witness: a concrete operation sequence preserving a present salt, and
a concrete fresh-salt generation. -/
theorem claim6_witness :
    (runOps [Op.logout, Op.unlock ['a'] (fun n => List.replicate n 3),
             Op.add ['t'] ['c'] ['u'] (fun n => List.replicate n 3),
             Op.del ['u'] (fun n => List.replicate n 3)]
        (initialVault, ⟨none, some [9]⟩)).2.salt = some [9]
    ∧ (step (initialVault, ⟨none, none⟩)
          (.unlock ['a'] (fun n => List.replicate n 3))).2.salt
        = some (List.replicate 16 3) :=
  ⟨claim6_saltOnce.1 _ initialVault ⟨none, some [9]⟩ [9] rfl,
   (claim6_saltOnce.2 initialVault ⟨none, none⟩ ['a'] (fun n => List.replicate n 3)
      rfl (by decide) (fun n => List.length_replicate n 3)).1⟩

/-- Property access `e.id` on a serialized entry yields exactly its id. -/
theorem jsIdMatches_entryToJson (e : Entry) (id : List Char) :
    jsIdMatches (entryToJson e) id = decide (e.id = id) := by
  simp [jsIdMatches, jsGet, entryToJson, lookupLast, keyId, keyTitle, keyContent]

/-- Filtering serialized entries by id agrees with filtering the entries. -/
theorem filter_entriesToJson (E : List Entry) (id : List Char) :
    (E.map entryToJson).filter (fun x => ! jsIdMatches x id)
      = (E.filter (fun e => ! decide (e.id = id))).map entryToJson := by
  rw [List.filter_map]
  have hpred : ((fun x => ! jsIdMatches x id) ∘ entryToJson)
      = fun e => ! decide (e.id = id) := by
    funext e
    simp [Function.comp, jsIdMatches_entryToJson]
  rw [hpred]

/-- C8: `deleteEntry(id)` removes exactly the entries whose id matches,
re-encodes and re-seals the full updated sequence under the session key and
overwrites the stored envelope; when no entry has the id the sequence is
unchanged (a no-op, not an error), yet still re-persisted. -/
theorem claim8_deleteEntry (E : List Entry) (id : List Char) (v : Vault) (store : Store)
    (key : DerivedKey) (rng : Nat → List Nat)
    (hE : v.entries = entriesToJson E) (hk : v.cryptoKey = some key) :
    deleteEntry v store id rng
      = ({ v with entries := entriesToJson (E.filter (fun e => ! decide (e.id = id))) },
         { store with data := some (encrypt key rng
             (encodeEntries (E.filter (fun e => ! decide (e.id = id))))) })
    ∧ ((∀ e ∈ E, e.id ≠ id) → E.filter (fun e => ! decide (e.id = id)) = E) := by
  constructor
  · simp [deleteEntry, hE, entriesToJson, filter_entriesToJson, saveVaultData, hk,
      encodeEntries]
  · intro hall
    rw [List.filter_eq_self]
    intro e he
    simpa using hall e he

/-- C8 witness: delete a present id and a missing id at concrete inputs. -/
theorem claim8_witness :
    deleteEntry
        ⟨entriesToJson [⟨['1'], ['t'], ['c']⟩], some (deriveKey ['p'] [0]), none, true⟩
        ⟨none, none⟩ ['1'] (fun n => List.replicate n 0)
      = (⟨entriesToJson [], some (deriveKey ['p'] [0]), none, true⟩,
         ⟨some (encrypt (deriveKey ['p'] [0]) (fun n => List.replicate n 0)
            (encodeEntries [])), none⟩)
    ∧ List.filter (fun e => ! decide (Entry.id e = ['2'])) [(⟨['1'], ['t'], ['c']⟩ : Entry)]
        = [⟨['1'], ['t'], ['c']⟩] :=
  ⟨(claim8_deleteEntry [⟨['1'], ['t'], ['c']⟩] ['1']
      ⟨entriesToJson [⟨['1'], ['t'], ['c']⟩], some (deriveKey ['p'] [0]), none, true⟩
      ⟨none, none⟩ (deriveKey ['p'] [0]) (fun n => List.replicate n 0) rfl rfl).1,
   (claim8_deleteEntry [⟨['1'], ['t'], ['c']⟩] ['2']
      ⟨entriesToJson [⟨['1'], ['t'], ['c']⟩], some (deriveKey ['p'] [0]), none, true⟩
      ⟨none, none⟩ (deriveKey ['p'] [0]) (fun n => List.replicate n 0) rfl rfl).2
     (by decide)⟩

/-- C10: a successful `addEntry` appends the entry with trimmed title and
trimmed content, persists the updated sequence, and the stored title and
content never carry leading or trailing whitespace. -/
theorem claim10_trimmed (v : Vault) (store : Store) (title content uuid : List Char)
    (rng : Nat → List Nat) (xs : List Json) (key : DerivedKey)
    (ht : title ≠ []) (hc : content ≠ []) (hxs : v.entries = .arr xs)
    (hk : v.cryptoKey = some key) :
    (addEntry v store title content uuid rng).1.entries
        = .arr (xs ++ [entryToJson ⟨uuid, jsTrim title, jsTrim content⟩])
    ∧ (addEntry v store title content uuid rng).2.1.data
        = some (encrypt key rng (jsonStringify
            (.arr (xs ++ [entryToJson ⟨uuid, jsTrim title, jsTrim content⟩]))))
    ∧ (∀ x, (jsTrim title).head? = some x → isTrimWs x = false)
    ∧ (∀ x, (jsTrim title).getLast? = some x → isTrimWs x = false)
    ∧ (∀ x, (jsTrim content).head? = some x → isTrimWs x = false)
    ∧ (∀ x, (jsTrim content).getLast? = some x → isTrimWs x = false) := by
  refine ⟨?_, ?_, fun x hx => jsTrim_head _ _ hx, fun x hx => jsTrim_getLast _ _ hx,
    fun x hx => jsTrim_head _ _ hx, fun x hx => jsTrim_getLast _ _ hx⟩ <;>
    simp [addEntry, ht, hc, hxs, saveVaultData, hk]

/-- C10 witness: appending an entry with untrimmed inputs at concrete values. -/
theorem claim10_witness :
    (addEntry ⟨.arr [], some (deriveKey ['p'] [0]), none, true⟩ ⟨none, none⟩
        [' ', 'a', ' '] ['b'] ['u'] (fun n => List.replicate n 0)).1.entries
      = .arr [entryToJson ⟨['u'], ['a'], ['b']⟩] :=
  (claim10_trimmed ⟨.arr [], some (deriveKey ['p'] [0]), none, true⟩ ⟨none, none⟩
    [' ', 'a', ' '] ['b'] ['u'] (fun n => List.replicate n 0) [] (deriveKey ['p'] [0])
    (by decide) (by decide) rfl rfl).1


end ClassiPort
